import Mathlib

/-!
# Verification of the slapjack game-arbitration core

A shallow embedding of the server's game engine (`internal/game`: rules,
game state, card play, slap arbitration, burn penalties, turn advance,
timeout auto-play) and the room roster logic (`internal/room/room.go`),
with theorems checking the natural-language specification against it.

Go maps are embedded as association lists (lookup and update act on the
first entry with a matching key; a missing key reads the zero value and
an update on a missing key appends it), Go slices as lists of their
values, and the wall clock as an explicit integer timestamp in
milliseconds passed to the operations that read it.  The value-level
slice model is exact except on the burn-penalty path, where Go's
`append` writes through a shared backing array; that path additionally
gets a memory-level model (`burnInPlace`) capturing the capacity-reuse
semantics.  The card/deck module (`card.go`) appears in the sources
appended to `src/client/tailwind.config.ts`.
-/

namespace Slapjack

/-- `Card` from `card.go`: a (suit, rank) pair of strings. -/
structure Card where
  suit : String
  rank : String
  deriving DecidableEq, Repr

/-- `IsJack` from `card.go`: the card's rank string is `"J"`. -/
def Card.isJack (c : Card) : Bool :=
  c.rank == "J"

/-- The `suits` variable from `card.go`. -/
def suits : List String := ["hearts", "diamonds", "clubs", "spades"]

/-- The `ranks` variable from `card.go`. -/
def ranks : List String :=
  ["A", "2", "3", "4", "5", "6", "7", "8", "9", "10", "J", "Q", "K"]

/-- The 52 cards built by `NewDeck` in `card.go`: for each suit in
order, each rank in order. -/
def newDeckCards : List Card :=
  suits.flatMap (fun s => ranks.map (fun r => ⟨s, r⟩))

/-- One step of the dealing loop in `Deal` (`card.go`): append a card
to the hand at index `j` (`hands[playerIdx] = append(...)`). -/
def appendAt : List (List Card) → Nat → Card → List (List Card)
  | [], _, _ => []
  | h :: hs, 0, c => (h ++ [c]) :: hs
  | h :: hs, j + 1, c => h :: appendAt hs j c

/-- The `for i, card := range d.cards` loop of `Deal` (`card.go`):
card `i` goes to hand `i % numPlayers`. -/
def dealLoop (n : Nat) :
    List (List Card) → Nat → List Card → List (List Card)
  | hands, _, [] => hands
  | hands, i, c :: cs => dealLoop n (appendAt hands (i % n) c) (i + 1) cs

/-- `Deal` from `card.go`: `numPlayers` initially empty hands, filled
round-robin.  (Each Go hand is allocated with capacity
`52/numPlayers + 1`; capacities do not affect the dealt values but
matter for the burn-penalty aliasing modelled by `burnInPlace`.) -/
def Deal (numPlayers : Nat) (cards : List Card) : List (List Card) :=
  dealLoop numPlayers (List.replicate numPlayers []) 0 cards

/-- The slap reasons (`SlapReason` constants in `rules.go`). -/
inductive SlapReason where
  | jack
  | doubles
  | sandwich
  | invalid
  deriving DecidableEq, Repr

/-- The wire string for a slap reason (the `SlapReason` string values). -/
def SlapReason.str : SlapReason → String
  | .jack => "jack"
  | .doubles => "doubles"
  | .sandwich => "sandwich"
  | .invalid => "invalid"

/-- `Rules` from `rules.go`: which optional slap variants are enabled. -/
structure Rules where
  enableDoubles : Bool
  enableSandwich : Bool
  deriving DecidableEq, Repr

/-- A default card used only to give out-of-range pile indexing a value;
every access in `CheckSlap` is guarded by a length test exactly as in
the Go source, so the default is never read. -/
def defaultCard : Card := ⟨"", ""⟩

/-- `CheckSlap` from `rules.go`: the pile is ordered with the last
element on top; checks Jack on top, then doubles (top two share rank, if
enabled), then sandwich (top and third-from-top share rank, if enabled),
first match winning. -/
def Rules.CheckSlap (r : Rules) (pile : List Card) : SlapReason :=
  if pile.length = 0 then
    SlapReason.invalid
  else if (pile.getD (pile.length - 1) defaultCard).isJack then
    SlapReason.jack
  else if r.enableDoubles && decide (2 ≤ pile.length) &&
      ((pile.getD (pile.length - 1) defaultCard).rank ==
        (pile.getD (pile.length - 2) defaultCard).rank) then
    SlapReason.doubles
  else if r.enableSandwich && decide (3 ≤ pile.length) &&
      ((pile.getD (pile.length - 1) defaultCard).rank ==
        (pile.getD (pile.length - 3) defaultCard).rank) then
    SlapReason.sandwich
  else
    SlapReason.invalid

/-- `IsValidSlap` from `rules.go`. -/
def Rules.IsValidSlap (r : Rules) (pile : List Card) : Bool :=
  r.CheckSlap pile != SlapReason.invalid

/-- Restatement of the specified slap-validity order on the reversed
pile (head = top card): Jack on top, else doubles when enabled and the
top two cards share rank, else sandwich when enabled and the top and
third-from-top cards share rank, else invalid (in particular the empty
pile is invalid) — written from the spec's words for comparison with
`Rules.CheckSlap`. -/
def checkSlapSpec (r : Rules) (pile : List Card) : SlapReason :=
  match pile.reverse with
  | [] => SlapReason.invalid
  | top :: below =>
    if top.isJack then SlapReason.jack
    else if r.enableDoubles &&
        (match below with
         | second :: _ => top.rank == second.rank
         | [] => false) then SlapReason.doubles
    else if r.enableSandwich &&
        (match below with
         | _ :: third :: _ => top.rank == third.rank
         | _ => false) then SlapReason.sandwich
    else SlapReason.invalid

/-- Indexing from the back of a list is indexing into its reverse. -/
theorem getD_eq_reverse_getD (l : List α) (k : Nat) (hk : k < l.length)
    (d : α) : l.getD (l.length - 1 - k) d = l.reverse.getD k d := by
  rw [List.getD_eq_getElem l d (show l.length - 1 - k < l.length by omega),
    List.getD_eq_getElem l.reverse d (show k < l.reverse.length by
      simpa using hk)]
  simp [List.getElem_reverse]

/-- C2: `CheckSlap` evaluates the slap conditions top-down with the
first match winning: Jack on top beats everything; else doubles when
enabled and the top two cards share rank; else sandwich when enabled and
the top and third-from-top cards share rank; otherwise (including the
empty pile) the slap is invalid. -/
theorem CheckSlap_correct (r : Rules) (pile : List Card) :
    r.CheckSlap pile = checkSlapSpec r pile := by
  rcases h : pile.reverse with _ | ⟨top, below⟩
  · have hp : pile = [] := by simpa using congrArg List.reverse h
    subst hp
    simp [Rules.CheckSlap, checkSlapSpec]
  · rcases below with _ | ⟨second, rest⟩
    · -- pile has exactly one card
      have hp : pile = [top] := by simpa using congrArg List.reverse h
      subst hp
      simp [Rules.CheckSlap, checkSlapSpec]
    · rcases rest with _ | ⟨third, rest'⟩
      · -- pile has exactly two cards
        have hp : pile = [second, top] := by
          simpa using congrArg List.reverse h
        subst hp
        simp [Rules.CheckSlap, checkSlapSpec]
      · -- pile has at least three cards
        have hp : pile = rest'.reverse ++ [third, second, top] := by
          simpa using congrArg List.reverse h
        subst hp
        have hlen : (rest'.reverse ++ [third, second, top]).length
            = rest'.length + 3 := by simp
        have e1 : (rest'.reverse ++ [third, second, top]).getD
            (rest'.length + 2) defaultCard = top := by
          rw [List.getD_append_right _ _ _ _ (by simp)]
          rw [show rest'.length + 2 - rest'.reverse.length = 2 by
            simp]
          rfl
        have e2 : (rest'.reverse ++ [third, second, top]).getD
            (rest'.length + 1) defaultCard = second := by
          rw [List.getD_append_right _ _ _ _ (by simp)]
          rw [show rest'.length + 1 - rest'.reverse.length = 1 by
            simp]
          rfl
        have e3 : (rest'.reverse ++ [third, second, top]).getD
            rest'.length defaultCard = third := by
          rw [List.getD_append_right _ _ _ _ (by simp)]
          rw [show rest'.length - rest'.reverse.length = 0 by simp]
          rfl
        have ha1 : rest'.length + 3 - 1 = rest'.length + 2 := by omega
        have ha2 : rest'.length + 3 - 2 = rest'.length + 1 := by omega
        have ha3 : rest'.length + 3 - 3 = rest'.length := by omega
        have hd2 : decide (2 ≤ rest'.length + 3) = true :=
          decide_eq_true (by omega)
        have hd3 : decide (3 ≤ rest'.length + 3) = true :=
          decide_eq_true (by omega)
        have h0 : ¬(rest'.length + 3 = 0) := by omega
        simp only [Rules.CheckSlap, checkSlapSpec, hlen, ha1, ha2, ha3,
          e1, e2, e3, hd2, hd3, h0, if_false, Bool.and_true, h]

/-! ## Go maps as association lists -/

/-- Read a key from a Go map, returning the type's zero value `d` when
the key is absent. -/
def lookupA (d : α) : List (String × α) → String → α
  | [], _ => d
  | e :: es, k => if e.1 == k then e.2 else lookupA d es k

/-- The comma-ok read of a Go map: `some` when the key is present. -/
def lookupA? : List (String × α) → String → Option α
  | [], _ => none
  | e :: es, k => if e.1 == k then some e.2 else lookupA? es k

/-- Write a key into a Go map, replacing the bound value or inserting
the key when absent. -/
def setA : List (String × α) → String → α → List (String × α)
  | [], k, v => [(k, v)]
  | e :: es, k, v => if e.1 == k then (k, v) :: es else e :: setA es k v

/-! ## The game engine state (`game.go`) -/

/-- `SlapAttempt` from `game.go`. -/
structure SlapAttempt where
  playerID : String
  serverTimestamp : Int
  clientTimestamp : Int
  deriving DecidableEq, Repr

/-- `GameStats` from `game.go`. -/
structure GameStats where
  totalSlaps : Nat
  successfulSlaps : List (String × Nat)
  cardsBurned : List (String × Nat)
  deriving DecidableEq, Repr

/-- `Game` from `game.go`. The mutexes, the timer-cancel channel and the
start time carry no game-visible state and are omitted; the per-player
`LastSlapTime` map holds absolute timestamps in milliseconds. -/
structure Game where
  playerHands : List (String × List Card)
  pile : List Card
  turnOrder : List String
  currentTurnIdx : Nat
  rules : Rules
  burnPenalty : Nat
  slapCooldownMs : Nat
  turnTimeoutMs : Nat
  enableSlapIn : Bool
  maxSlapIns : Nat
  slapInCounts : List (String × Nat)
  lastSlapTime : List (String × Int)
  pendingSlaps : List SlapAttempt
  slapWindowOpen : Bool
  stats : GameStats
  deriving DecidableEq, Repr

/-- `NewGame` from `game.go`: builds a deck (`NewDeck`), shuffles it
and deals it (`hands := deck.Deal(len(playerIDs))`), hand `i` going to
player `i`.  `Shuffle` permutes the deck in place with an RNG seeded
from the wall clock (`card.go`), so the post-shuffle deck enters here
as the `shuffledDeck` parameter; theorems about fresh games constrain
it to a permutation of `NewDeck`'s cards. -/
def NewGame (playerIDs : List String) (shuffledDeck : List Card)
    (enableDoubles enableSandwich : Bool)
    (burnPenalty slapCooldownMs turnTimeoutMs : Nat)
    (enableSlapIn : Bool) (maxSlapIns : Nat) : Game where
  playerHands := playerIDs.zip (Deal playerIDs.length shuffledDeck)
  pile := []
  turnOrder := playerIDs
  currentTurnIdx := 0
  rules := ⟨enableDoubles, enableSandwich⟩
  burnPenalty := burnPenalty
  slapCooldownMs := slapCooldownMs
  turnTimeoutMs := turnTimeoutMs
  enableSlapIn := enableSlapIn
  maxSlapIns := maxSlapIns
  slapInCounts := playerIDs.map (fun id => (id, 0))
  lastSlapTime := []
  pendingSlaps := []
  slapWindowOpen := false
  stats := ⟨0, [], []⟩

/-- The loop of `advanceTurn` in `game.go`: step the index circularly,
stopping at the first seat whose hand is non-empty or on wrapping back
to the start.  The Go `for` loop runs at most `len(TurnOrder)`
iterations before the wrap check fires, which is the fuel given by
`Game.advanceTurn`. -/
def advanceTurnGo (order : List String) (hands : List (String × List Card))
    (startIdx : Nat) : Nat → Nat → Nat
  | cur, 0 => cur
  | cur, fuel + 1 =>
    let next := (cur + 1) % order.length
    if 0 < (lookupA [] hands (order.getD next "")).length then next
    else if next == startIdx then next
    else advanceTurnGo order hands startIdx next fuel

/-- `advanceTurn` from `game.go`. -/
def Game.advanceTurn (g : Game) : Game :=
  { g with
      currentTurnIdx := advanceTurnGo g.turnOrder g.playerHands
        g.currentTurnIdx g.currentTurnIdx g.turnOrder.length }

/-- `PlayCard` from `game.go`: only the player at the current-turn index
with a non-empty hand may play; the front card of their hand goes on top
of the pile, the slap window opens, the pending-slap list is reset and
the turn advances.  An error return leaves the state untouched, as the
Go method returns before any mutation. -/
def Game.PlayCard (g : Game) (playerID : String) :
    Except String Card × Game :=
  if g.turnOrder.getD g.currentTurnIdx "" != playerID then
    (Except.error "not your turn", g)
  else
    match lookupA [] g.playerHands playerID with
    | [] => (Except.error "no cards to play", g)
    | card :: restHand =>
      let g' := { g with
        playerHands := setA g.playerHands playerID restHand,
        pile := g.pile ++ [card],
        slapWindowOpen := true,
        pendingSlaps := [] }
      (Except.ok card, g'.advanceTurn)

/-- Value-level model of `applyBurnPenalty` from `game.go`: remove
`min(BurnPenalty, len(hand))` cards from the front of the hand and
prepend them to the bottom of the pile; returns the burn count.  The
Go code builds the new pile with `append(burnedCards, g.Pile...)`,
which writes the pile through the hand's backing array whenever the
capacity suffices, corrupting the stored remaining hand — a memory
effect this value model does not capture; it is modelled separately by
`burnInPlace` and proved divergent at `burn_aliasing_corrupts_hand`. -/
def Game.applyBurnPenalty (g : Game) (playerID : String) : Nat × Game :=
  let hand := lookupA [] g.playerHands playerID
  if hand.length = 0 then (0, g)
  else
    let burnCount :=
      if g.burnPenalty > hand.length then hand.length else g.burnPenalty
    (burnCount, { g with
      playerHands := setA g.playerHands playerID (hand.drop burnCount),
      pile := hand.take burnCount ++ g.pile })

/-- `SlapResultPayload` from `pkg/protocol/messages.go`. -/
structure SlapResultPayload where
  playerID : String
  success : Bool
  reason : String
  cardsWon : Nat
  burnPenalty : Nat
  deriving DecidableEq, Repr

/-- The tail of `ProcessSlap` in `game.go`, reached once the zero-card
guards fall through: an invalid pile burns the slapper, a valid pile is
won whole, closing the slap window, crediting the slap, bumping the
slap-in counter when the player had no cards, and making the winner the
next to act. -/
def Game.processSlapResolve (g : Game) (playerID : String)
    (playerHasCards : Bool) (reason : SlapReason) :
    SlapResultPayload × Game :=
  if reason = SlapReason.invalid then
    let res := g.applyBurnPenalty playerID
    let g1 := { res.2 with stats := { res.2.stats with
        cardsBurned := setA res.2.stats.cardsBurned playerID
          (lookupA 0 res.2.stats.cardsBurned playerID + res.1) } }
    (⟨playerID, false, reason.str, 0, res.1⟩, g1)
  else
    let cardsWon := g.pile.length
    let g1 := if playerHasCards = false then
        { g with
            slapInCounts := setA g.slapInCounts playerID
              (lookupA 0 g.slapInCounts playerID + 1) }
      else g
    let g2 := { g1 with
      playerHands := setA g1.playerHands playerID
        (lookupA [] g1.playerHands playerID ++ g1.pile),
      pile := [],
      slapWindowOpen := false,
      stats := { g1.stats with
        successfulSlaps := setA g1.stats.successfulSlaps playerID
          (lookupA 0 g1.stats.successfulSlaps playerID + 1) } }
    let g3 := { g2 with currentTurnIdx :=
        match g2.turnOrder.findIdx? (· == playerID) with
        | some i => i
        | none => g2.currentTurnIdx }
    (⟨playerID, true, reason.str, cardsWon, 0⟩, g3)

/-- The cooldown test at the head of `ProcessSlap`: a previous attempt
by this player exists and lies within `SlapCooldownMs` of `now`. -/
def cooldownBlocked (g : Game) (pid : String) (now : Int) : Bool :=
  match lookupA? g.lastSlapTime pid with
  | some last => decide (now - last < (g.slapCooldownMs : Int))
  | none => false

/-- `ProcessSlap` from `game.go`: tallies the attempt, rejects attempts
inside the per-player cooldown window without further state change,
otherwise records the attempt time and dispatches on whether the player
holds cards (zero-card players need the slap-in feature and a remaining
slap-in, and are never burned) and on pile validity.  `now` is the
current wall-clock reading in milliseconds (`time.Now()`), so
`time.Since(lastSlap)` is `now - lastSlap`. -/
def Game.ProcessSlap (g : Game) (playerID : String) (now : Int) :
    SlapResultPayload × Game :=
  let g0 := { g with stats :=
    { g.stats with totalSlaps := g.stats.totalSlaps + 1 } }
  let blocked := cooldownBlocked g0 playerID now
  if blocked then
    (⟨playerID, false, "cooldown", 0, 0⟩, g0)
  else
    let g1 := { g0 with
      lastSlapTime := setA g0.lastSlapTime playerID now }
    let playerHasCards :=
      decide (0 < (lookupA [] g1.playerHands playerID).length)
    let reason := g1.rules.CheckSlap g1.pile
    if playerHasCards = false then
      let canSlapIn := g1.enableSlapIn &&
        decide (lookupA 0 g1.slapInCounts playerID < g1.maxSlapIns)
      if canSlapIn = false then
        (⟨playerID, false, "eliminated", 0, 0⟩, g1)
      else if reason = SlapReason.invalid then
        (⟨playerID, false, reason.str, 0, 0⟩, g1)
      else
        g1.processSlapResolve playerID playerHasCards reason
    else
      g1.processSlapResolve playerID playerHasCards reason

/-- The turn-timeout body of `StartTurnTimer` in `game.go`: when the
timeout fires, the current player's front card (if any) is played on
their behalf — hand shrinks, pile grows, the slap window opens and the
turn advances; with an empty hand nothing changes.  Unlike `PlayCard`
this path does not reset `PendingSlaps`. -/
def Game.autoPlayStep (g : Game) : Game :=
  let currentPlayer := g.turnOrder.getD g.currentTurnIdx ""
  match lookupA [] g.playerHands currentPlayer with
  | [] => g
  | card :: restHand =>
    Game.advanceTurn { g with
      playerHands := setA g.playerHands currentPlayer restHand,
      pile := g.pile ++ [card],
      slapWindowOpen := true }

/-! ## Card conservation -/

/-- All cards held in the hands map, as a multiset. -/
def handsCards : List (String × List Card) → Multiset Card
  | [] => 0
  | e :: es => (e.2 : Multiset Card) + handsCards es

/-- All cards in play: every hand plus the pile. -/
def Game.cards (g : Game) : Multiset Card :=
  handsCards g.playerHands + (g.pile : Multiset Card)

/-- The states reachable from a fresh deal of the standard deck by any
sequence of card plays, slap attempts and turn-timeout auto-plays.  The
base case covers `NewGame` over a non-empty player list and any
post-`Shuffle` deck, constrained to be a permutation of `NewDeck`'s
cards. -/
inductive Reachable : Game → Prop where
  | base (playerIDs : List String) (shuffledDeck : List Card)
      (enableDoubles enableSandwich : Bool)
      (burnPenalty slapCooldownMs turnTimeoutMs : Nat)
      (enableSlapIn : Bool) (maxSlapIns : Nat)
      (hpos : 0 < playerIDs.length)
      (hdeal : (shuffledDeck : Multiset Card)
        = (newDeckCards : Multiset Card)) :
      Reachable (NewGame playerIDs shuffledDeck enableDoubles
        enableSandwich burnPenalty slapCooldownMs turnTimeoutMs
        enableSlapIn maxSlapIns)
  | play (g : Game) (pid : String) :
      Reachable g → Reachable (g.PlayCard pid).2
  | slap (g : Game) (pid : String) (now : Int) :
      Reachable g → Reachable (g.ProcessSlap pid now).2
  | timeout (g : Game) : Reachable g → Reachable g.autoPlayStep

/-- Replacing a hand in the map exchanges exactly the old bound hand for
the new one in the multiset of held cards. -/
theorem handsCards_setA (hs : List (String × List Card)) (k : String)
    (v : List Card) :
    handsCards (setA hs k v) + (↑(lookupA [] hs k) : Multiset Card)
      = handsCards hs + (↑v : Multiset Card) := by
  induction hs with
  | nil => simp [setA, lookupA, handsCards]
  | cons e es ih =>
    by_cases h : e.1 == k
    · rw [show setA (e :: es) k v = (k, v) :: es from by simp [setA, h],
        show lookupA [] (e :: es) k = e.2 from by simp [lookupA, h]]
      show (↑v : Multiset Card) + handsCards es + ↑e.2
        = ↑e.2 + handsCards es + ↑v
      abel
    · rw [show setA (e :: es) k v = e :: setA es k v from by simp [setA, h],
        show lookupA [] (e :: es) k = lookupA [] es k from by
          simp [lookupA, h]]
      show (↑e.2 : Multiset Card) + handsCards (setA es k v)
          + ↑(lookupA [] es k)
        = ↑e.2 + handsCards es + ↑v
      rw [add_assoc, add_assoc, ih]

/-- Popping the front card of a hand removes exactly that card from the
multiset of held cards. -/
theorem handsCards_pop (hs : List (String × List Card)) (k : String)
    (c : Card) (rest : List Card) (h : lookupA [] hs k = c :: rest) :
    handsCards (setA hs k rest) + {c} = handsCards hs := by
  have h2 := handsCards_setA hs k rest
  rw [h] at h2
  have h3 : (↑(c :: rest) : Multiset Card)
      = {c} + (rest : Multiset Card) := by
    simp [Multiset.singleton_add]
  rw [h3, ← add_assoc] at h2
  exact add_right_cancel h2

/-- Moving the front card of a hand to the top of the pile conserves the
card multiset. -/
theorem handsCards_moveTop (hs : List (String × List Card)) (k : String)
    (pile : List Card) (c : Card) (rest : List Card)
    (h : lookupA [] hs k = c :: rest) :
    handsCards (setA hs k rest) + (↑(pile ++ [c]) : Multiset Card)
      = handsCards hs + (pile : Multiset Card) := by
  have h2 := handsCards_pop hs k c rest h
  calc handsCards (setA hs k rest) + (↑(pile ++ [c]) : Multiset Card)
      = handsCards (setA hs k rest) + {c} + (pile : Multiset Card) := by
        rw [show (↑(pile ++ [c]) : Multiset Card)
            = (pile : Multiset Card) + {c} from by
          rw [← Multiset.coe_singleton c, Multiset.coe_add]]
        abel
    _ = handsCards hs + (pile : Multiset Card) := by rw [h2]

/-- `PlayCard` never creates or destroys cards. -/
theorem cards_PlayCard (g : Game) (pid : String) :
    (g.PlayCard pid).2.cards = g.cards := by
  unfold Game.PlayCard
  split
  · rfl
  · split
    · rfl
    · rename_i card restHand heq
      simp only [Game.cards, Game.advanceTurn]
      exact handsCards_moveTop g.playerHands pid g.pile card restHand heq

/-- The timeout auto-play never creates or destroys cards. -/
theorem cards_autoPlayStep (g : Game) :
    g.autoPlayStep.cards = g.cards := by
  simp only [Game.autoPlayStep]
  split
  · rfl
  · rename_i card restHand heq
    simp only [Game.cards, Game.advanceTurn]
    exact handsCards_moveTop g.playerHands _ g.pile card restHand heq

/-- Moving the first `b` cards of a hand to the bottom of the pile
conserves the card multiset. -/
theorem handsCards_burnMove (hs : List (String × List Card)) (k : String)
    (pile : List Card) (b : Nat) :
    handsCards (setA hs k ((lookupA [] hs k).drop b))
        + (↑((lookupA [] hs k).take b ++ pile) : Multiset Card)
      = handsCards hs + (pile : Multiset Card) := by
  have h2 := handsCards_setA hs k ((lookupA [] hs k).drop b)
  have hsplit : (↑(lookupA [] hs k) : Multiset Card)
      = (↑((lookupA [] hs k).take b) : Multiset Card)
        + ↑((lookupA [] hs k).drop b) := by
    rw [Multiset.coe_add]
    exact congrArg (fun l : List Card => (↑l : Multiset Card))
      (List.take_append_drop b _).symm
  have h4 : handsCards (setA hs k ((lookupA [] hs k).drop b))
        + (↑((lookupA [] hs k).take b) : Multiset Card)
        + (↑((lookupA [] hs k).drop b) : Multiset Card)
      = handsCards hs + ↑((lookupA [] hs k).drop b) := by
    rw [add_assoc, ← hsplit]
    exact h2
  have h3 := add_right_cancel h4
  calc handsCards (setA hs k ((lookupA [] hs k).drop b))
        + (↑((lookupA [] hs k).take b ++ pile) : Multiset Card)
      = handsCards (setA hs k ((lookupA [] hs k).drop b))
        + (↑((lookupA [] hs k).take b) : Multiset Card)
        + (pile : Multiset Card) := by
        rw [show (↑((lookupA [] hs k).take b ++ pile) : Multiset Card)
            = (↑((lookupA [] hs k).take b) : Multiset Card)
              + (pile : Multiset Card) from by rw [Multiset.coe_add]]
        rw [add_assoc]
    _ = handsCards hs + (pile : Multiset Card) := by rw [h3]

/-- The burn penalty never creates or destroys cards. -/
theorem cards_applyBurnPenalty (g : Game) (pid : String) :
    (g.applyBurnPenalty pid).2.cards = g.cards := by
  simp only [Game.applyBurnPenalty]
  split
  · rfl
  · simp only [Game.cards]
    exact handsCards_burnMove g.playerHands pid g.pile _

/-- Winning the whole pile into a hand conserves the card multiset. -/
theorem handsCards_winPile (hs : List (String × List Card)) (k : String)
    (pile : List Card) :
    handsCards (setA hs k (lookupA [] hs k ++ pile))
      = handsCards hs + (pile : Multiset Card) := by
  have h2 := handsCards_setA hs k (lookupA [] hs k ++ pile)
  rw [show (↑(lookupA [] hs k ++ pile) : Multiset Card)
      = (↑(lookupA [] hs k) : Multiset Card) + (pile : Multiset Card) from by
    rw [Multiset.coe_add]] at h2
  have h3 : handsCards (setA hs k (lookupA [] hs k ++ pile))
        + (↑(lookupA [] hs k) : Multiset Card)
      = handsCards hs + (pile : Multiset Card)
        + (↑(lookupA [] hs k) : Multiset Card) := by
    rw [h2]
    abel
  exact add_right_cancel h3

/-- Slap resolution never creates or destroys cards. -/
theorem cards_processSlapResolve (g : Game) (pid : String)
    (hasCards : Bool) (reason : SlapReason) :
    (g.processSlapResolve pid hasCards reason).2.cards = g.cards := by
  simp only [Game.processSlapResolve]
  split
  · have h := cards_applyBurnPenalty g pid
    simp only [Game.cards] at h ⊢
    exact h
  · split
    · simp only [Game.cards]
      rw [handsCards_winPile]
      simp
    · simp only [Game.cards]
      rw [handsCards_winPile]
      simp

/-- `ProcessSlap` never creates or destroys cards. -/
theorem cards_ProcessSlap (g : Game) (pid : String) (now : Int) :
    (g.ProcessSlap pid now).2.cards = g.cards := by
  simp only [Game.ProcessSlap]
  split
  · rfl
  · split
    · split
      · rfl
      · split
        · rfl
        · exact cards_processSlapResolve _ pid _ _
    · exact cards_processSlapResolve _ pid _ _

/-- The cards dealt into the initial hands map are exactly the dealt
lists, when one hand is dealt per player. -/
theorem handsCards_zip : ∀ (ids : List String) (hands : List (List Card)),
    ids.length = hands.length →
    handsCards (ids.zip hands) = (↑hands.flatten : Multiset Card)
  | [], [], _ => by simp [handsCards]
  | [], _ :: _, hlen => by simp at hlen
  | _ :: _, [], hlen => by simp at hlen
  | i :: is, h :: hs, hlen => by
    have ih := handsCards_zip is hs (by simpa using hlen)
    show (↑h : Multiset Card) + handsCards (is.zip hs)
      = (↑(h ++ hs.flatten) : Multiset Card)
    rw [ih, Multiset.coe_add]

/-- The number of cards in the hands map is the sum of the hand sizes. -/
theorem card_handsCards (hs : List (String × List Card)) :
    Multiset.card (handsCards hs)
      = (hs.map (fun e => e.2.length)).sum := by
  induction hs with
  | nil => simp [handsCards]
  | cons e es ih => simp [handsCards, ih]

/-- Appending to one hand leaves the number of hands unchanged. -/
theorem appendAt_length : ∀ (hands : List (List Card)) (j : Nat)
    (c : Card), (appendAt hands j c).length = hands.length
  | [], _, _ => rfl
  | _ :: hs, 0, c => rfl
  | h :: hs, j + 1, c => by
    show (h :: appendAt hs j c).length = (h :: hs).length
    simp [appendAt_length hs j c]

/-- Appending to an in-range hand adds exactly that card to the dealt
multiset. -/
theorem appendAt_flatten (hands : List (List Card)) (j : Nat) (c : Card)
    (hj : j < hands.length) :
    ((appendAt hands j c).flatten : Multiset Card)
      = (hands.flatten : Multiset Card) + {c} := by
  induction hands generalizing j with
  | nil => simp at hj
  | cons h hs ih =>
    cases j with
    | zero =>
      show ((((h ++ [c]) :: hs).flatten : List Card) : Multiset Card) = _
      simp only [List.flatten_cons, ← Multiset.coe_add,
        Multiset.coe_singleton]
      abel
    | succ j =>
      show (((h :: appendAt hs j c).flatten : List Card)
          : Multiset Card) = _
      simp only [List.flatten_cons, ← Multiset.coe_add]
      rw [ih j (by simpa using hj)]
      abel

/-- The dealing loop leaves the number of hands unchanged. -/
theorem dealLoop_length (n : Nat) : ∀ (cs : List Card)
    (hands : List (List Card)) (i : Nat),
    (dealLoop n hands i cs).length = hands.length
  | [], _, _ => rfl
  | c :: cs, hands, i => by
    rw [dealLoop, dealLoop_length n cs _ (i + 1), appendAt_length]

/-- The dealing loop distributes exactly the remaining cards. -/
theorem dealLoop_flatten (n : Nat) (hn : 0 < n) : ∀ (cs : List Card)
    (hands : List (List Card)) (i : Nat), hands.length = n →
    ((dealLoop n hands i cs).flatten : Multiset Card)
      = (hands.flatten : Multiset Card) + (cs : Multiset Card)
  | [], hands, i, _ => by simp [dealLoop]
  | c :: cs, hands, i, hlen => by
    rw [dealLoop]
    rw [dealLoop_flatten n hn cs (appendAt hands (i % n) c) (i + 1)
      (by rw [appendAt_length]; exact hlen)]
    rw [appendAt_flatten hands (i % n) c
      (by rw [hlen]; exact Nat.mod_lt i hn)]
    rw [show ((c :: cs : List Card) : Multiset Card)
        = {c} + (cs : Multiset Card) from by
      rw [Multiset.singleton_add, Multiset.cons_coe]]
    abel

theorem flatten_replicate_nil : ∀ (n : Nat),
    (List.replicate n ([] : List Card)).flatten = []
  | 0 => rfl
  | n + 1 => by
    show (([] : List Card) :: List.replicate n []).flatten = []
    rw [List.flatten_cons, flatten_replicate_nil n]
    rfl

/-- `Deal` returns one hand per player. -/
theorem Deal_length (n : Nat) (cards : List Card) :
    (Deal n cards).length = n := by
  rw [Deal, dealLoop_length, List.length_replicate]

/-- With at least one player, `Deal` distributes exactly the given
cards over the hands. -/
theorem Deal_flatten (n : Nat) (hn : 0 < n) (cards : List Card) :
    ((Deal n cards).flatten : Multiset Card) = (cards : Multiset Card) := by
  rw [Deal, dealLoop_flatten n hn cards _ 0 (by simp)]
  rw [flatten_replicate_nil]
  simp

/-- Conservation in the aliasing-free value model: in every state
reachable from a fresh deal by plays, slaps (with burns and pile
transfers) and timeout auto-plays — with every slice modelled by its
value — the multiset of cards across all hands and the pile is the full
standard deck, and the hand sizes and the pile size sum to 52.  The
running program violates this invariant: `applyBurnPenalty`'s append
writes through the hand's backing array (see
`burn_aliasing_breaks_conservation`). -/
theorem cards_conserved_value_model (g : Game) (h : Reachable g) :
    g.cards = (↑newDeckCards : Multiset Card) ∧
    (g.playerHands.map (fun e => e.2.length)).sum + g.pile.length = 52 := by
  have hcards : g.cards = (↑newDeckCards : Multiset Card) := by
    induction h with
    | base ids deck d s bp cd tt esi msi hpos hdeal =>
      simp only [Game.cards, NewGame]
      rw [handsCards_zip ids (Deal ids.length deck)
        (Deal_length ids.length deck).symm]
      rw [Deal_flatten ids.length hpos deck, hdeal]
      simp
    | play g pid hg ih => rw [cards_PlayCard]; exact ih
    | slap g pid now hg ih => rw [cards_ProcessSlap]; exact ih
    | timeout g hg ih => rw [cards_autoPlayStep]; exact ih
  refine ⟨hcards, ?_⟩
  have hcard := congrArg Multiset.card hcards
  simp only [Game.cards, Multiset.card_add, Multiset.coe_card,
    card_handsCards] at hcard
  rw [hcard]
  rfl

/-- Writing a key and reading it back yields the written value. -/
theorem lookupA_setA_self (d : α) (hs : List (String × α)) (k : String)
    (v : α) : lookupA d (setA hs k v) k = v := by
  induction hs with
  | nil => simp [setA, lookupA]
  | cons e es ih =>
    by_cases h : e.1 == k
    · simp [setA, lookupA, h]
    · simp [setA, lookupA, h, ih]

/-- C8: a play by anyone other than the current-turn player, or by the
current-turn player with an empty hand, returns an error and leaves the
whole game state unchanged; a play returns a card successfully exactly
when the player is the current-turn player and holds a card, so at most
one player can successfully play in a given state. -/
theorem PlayCard_turn_guard (g : Game) (pid : String) :
    ((∃ c, (g.PlayCard pid).1 = Except.ok c) ↔
      (g.turnOrder.getD g.currentTurnIdx "" = pid ∧
        lookupA [] g.playerHands pid ≠ [])) ∧
    ((g.turnOrder.getD g.currentTurnIdx "" ≠ pid ∨
        lookupA [] g.playerHands pid = []) →
      (∃ msg, (g.PlayCard pid).1 = Except.error msg) ∧
        (g.PlayCard pid).2 = g) := by
  unfold Game.PlayCard
  split
  · rename_i hne
    have hne' : g.turnOrder.getD g.currentTurnIdx "" ≠ pid := by
      simpa using hne
    constructor
    · constructor
      · rintro ⟨c, hc⟩
        simp at hc
      · rintro ⟨heq, -⟩
        exact absurd heq hne'
    · intro _
      exact ⟨⟨"not your turn", rfl⟩, rfl⟩
  · rename_i hturn
    have hturn' : g.turnOrder.getD g.currentTurnIdx "" = pid := by
      simpa using hturn
    split
    · rename_i hempty
      constructor
      · constructor
        · rintro ⟨c, hc⟩
          simp at hc
        · rintro ⟨-, hne⟩
          exact absurd hempty hne
      · intro _
        exact ⟨⟨"no cards to play", rfl⟩, rfl⟩
    · rename_i card restHand hhand
      constructor
      · constructor
        · intro _
          exact ⟨hturn', by simp [hhand]⟩
        · intro _
          exact ⟨card, rfl⟩
      · intro hbad
        rcases hbad with hbad | hbad
        · exact absurd hturn' hbad
        · rw [hhand] at hbad
          simp at hbad

/-- Witness for the turn guard: in a fresh two-player game the second
player is not the current player, so their play fails and changes
nothing. -/
theorem PlayCard_turn_guard_witness :
    (∃ msg, ((NewGame ["a", "b"] [⟨"hearts", "2"⟩, ⟨"hearts", "3"⟩] true true 1 200
        10000 false 3).PlayCard "b").1 = Except.error msg) ∧
      ((NewGame ["a", "b"] [⟨"hearts", "2"⟩, ⟨"hearts", "3"⟩] true true 1 200 10000
        false 3).PlayCard "b").2
        = NewGame ["a", "b"] [⟨"hearts", "2"⟩, ⟨"hearts", "3"⟩] true true 1 200 10000
          false 3 :=
  (PlayCard_turn_guard (NewGame ["a", "b"] [⟨"hearts", "2"⟩, ⟨"hearts", "3"⟩] true true
    1 200 10000 false 3) "b").2 (by left; decide)

/-- Whether the seat at `idx` holds at least one card. -/
def seatHasCards (order : List String) (hands : List (String × List Card))
    (idx : Nat) : Bool :=
  decide (0 < (lookupA [] hands (order.getD idx "")).length)

/-- Whether the seat `i` circular steps after `start` holds cards: the
stopping condition of the `advanceTurn` loop at its `i`-th iteration. -/
def stepStop (order : List String) (hands : List (String × List Card))
    (start i : Nat) : Bool :=
  seatHasCards order hands ((start + i) % order.length)

/-- The least `j` with `i ≤ j < n` satisfying `P`, or `n` if none. -/
def leastFrom (P : Nat → Bool) (n : Nat) (i : Nat) : Nat :=
  if h : i < n then (if P i then i else leastFrom P n (i + 1)) else n
termination_by n - i

/-- `leastFrom` finds the least satisfying index in range, or `n`. -/
theorem leastFrom_spec (P : Nat → Bool) (n i : Nat) :
    (leastFrom P n i = n ∧ ∀ j, i ≤ j → j < n → P j = false)
    ∨ (i ≤ leastFrom P n i ∧ leastFrom P n i < n
        ∧ P (leastFrom P n i) = true
        ∧ ∀ j, i ≤ j → j < leastFrom P n i → P j = false) := by
  by_cases h : i < n
  · by_cases hp : P i
    · right
      rw [leastFrom, dif_pos h, if_pos hp]
      exact ⟨le_refl i, h, hp, fun j hj hj2 => absurd hj (by omega)⟩
    · have hp' : P i = false := by simpa using hp
      rcases leastFrom_spec P n (i + 1) with ⟨h1, h2⟩ | ⟨h1, h2, h3, h4⟩
      · left
        rw [leastFrom, dif_pos h, if_neg hp]
        refine ⟨h1, fun j hj hj2 => ?_⟩
        rcases Nat.eq_or_lt_of_le hj with hj' | hj'
        · exact hj' ▸ hp'
        · exact h2 j (by omega) hj2
      · right
        rw [leastFrom, dif_pos h, if_neg hp]
        refine ⟨by omega, h2, h3, fun j hj hj2 => ?_⟩
        rcases Nat.eq_or_lt_of_le hj with hj' | hj'
        · exact hj' ▸ hp'
        · exact h4 j (by omega) hj2
  · left
    rw [leastFrom, dif_neg h]
    exact ⟨rfl, fun j hj hj2 => by omega⟩
termination_by n - i

/-- Skipping a non-satisfying index advances the search start. -/
theorem leastFrom_step (P : Nat → Bool) (n i : Nat) (h : i < n)
    (hp : P i = false) : leastFrom P n i = leastFrom P n (i + 1) := by
  rw [leastFrom, dif_pos h, if_neg (by simp [hp])]

/-- Stepping a proper fraction of a full circle never returns to the
starting residue. -/
theorem mod_shift_ne (start k n : Nat) (hstart : start < n) (hk1 : 0 < k)
    (hk2 : k < n) : (start + k) % n ≠ start := by
  by_cases hlt : start + k < n
  · rw [Nat.mod_eq_of_lt hlt]
    omega
  · rw [Nat.mod_eq_sub_mod (by omega), Nat.mod_eq_of_lt (by omega)]
    omega

/-- The `advanceTurn` loop, started at the seat `t` steps past `start`
with `order.length - t` iterations of fuel remaining, lands on the seat
`leastFrom (stepStop order hands start) order.length (t+1)` steps past
`start`: the first subsequent seat with cards, the wrap check firing
exactly when the fuel runs out. -/
theorem advanceTurnGo_spec (order : List String)
    (hands : List (String × List Card)) (start : Nat)
    (hstart : start < order.length) :
    ∀ fuel t, fuel + t = order.length →
    advanceTurnGo order hands start ((start + t) % order.length) fuel
      = (start + leastFrom (stepStop order hands start) order.length
          (t + 1)) % order.length := by
  intro fuel
  induction fuel with
  | zero =>
    intro t ht
    have ht' : t = order.length := by omega
    subst ht'
    rw [show leastFrom (stepStop order hands start) order.length
        (order.length + 1) = order.length from by
      rw [leastFrom, dif_neg (by omega)]]
    rfl
  | succ fuel ih =>
    intro t ht
    have hn : 0 < order.length := by omega
    have hnext : ((start + t) % order.length + 1) % order.length
        = (start + (t + 1)) % order.length := by
      rw [Nat.mod_add_mod, Nat.add_assoc]
    simp only [advanceTurnGo, hnext]
    by_cases hp : stepStop order hands start (t + 1) = true
    · have hp' : 0 < (lookupA [] hands (order.getD
          ((start + (t + 1)) % order.length) "")).length := by
        simpa [stepStop, seatHasCards] using hp
      rw [if_pos hp']
      by_cases hT : t + 1 < order.length
      · rw [show leastFrom (stepStop order hands start) order.length
            (t + 1) = t + 1 from by
          rw [leastFrom, dif_pos hT, if_pos hp]]
      · rw [show leastFrom (stepStop order hands start) order.length
            (t + 1) = order.length from by
          rw [leastFrom, dif_neg (by omega)]]
        rw [show t + 1 = order.length from by omega]
    · have hpf : stepStop order hands start (t + 1) = false := by
        simpa using hp
      have hp' : ¬(0 < (lookupA [] hands (order.getD
          ((start + (t + 1)) % order.length) "")).length) := by
        simpa [stepStop, seatHasCards] using hp
      rw [if_neg hp']
      by_cases hT : t + 1 < order.length
      · have hwrap : ¬(((start + (t + 1)) % order.length == start)
            = true) := by
          simp only [beq_iff_eq]
          exact mod_shift_ne start (t + 1) order.length hstart
            (by omega) hT
        rw [if_neg hwrap]
        rw [ih (t + 1) (by omega)]
        rw [leastFrom_step (stepStop order hands start) order.length
          (t + 1) hT hpf]
      · have hws : ((start + (t + 1)) % order.length == start)
            = true := by
          rw [show t + 1 = order.length from by omega,
            Nat.add_mod_right, Nat.mod_eq_of_lt hstart]
          simp
        rw [if_pos hws]
        rw [show leastFrom (stepStop order hands start) order.length
            (t + 1) = order.length from by
          rw [leastFrom, dif_neg (by omega)]]
        rw [show t + 1 = order.length from by omega,
          Nat.add_mod_right, Nat.mod_eq_of_lt hstart]

/-- C7: `advanceTurn` (whose loop provably exits within
`len(TurnOrder)` iterations) moves the current-turn index circularly
forward to the first subsequent seat whose player holds at least one
card, and leaves the index unchanged when it wraps fully around without
finding one (every other seat empty). -/
theorem advanceTurn_correct (g : Game) (hn : 0 < g.turnOrder.length)
    (hcur : g.currentTurnIdx < g.turnOrder.length) :
    (∃ i, 1 ≤ i ∧ i ≤ g.turnOrder.length ∧
      g.advanceTurn.currentTurnIdx
        = (g.currentTurnIdx + i) % g.turnOrder.length ∧
      seatHasCards g.turnOrder g.playerHands
        g.advanceTurn.currentTurnIdx = true ∧
      ∀ j, 1 ≤ j → j < i → seatHasCards g.turnOrder g.playerHands
        ((g.currentTurnIdx + j) % g.turnOrder.length) = false)
    ∨ ((∀ j, 1 ≤ j → j ≤ g.turnOrder.length →
        seatHasCards g.turnOrder g.playerHands
          ((g.currentTurnIdx + j) % g.turnOrder.length) = false) ∧
      g.advanceTurn.currentTurnIdx = g.currentTurnIdx) := by
  have hmain := advanceTurnGo_spec g.turnOrder g.playerHands
    g.currentTurnIdx hcur g.turnOrder.length 0 (by omega)
  rw [Nat.add_zero, Nat.mod_eq_of_lt hcur] at hmain
  have hadv : g.advanceTurn.currentTurnIdx
      = (g.currentTurnIdx + leastFrom (stepStop g.turnOrder
          g.playerHands g.currentTurnIdx) g.turnOrder.length 1)
        % g.turnOrder.length := by
    simp only [Game.advanceTurn]
    exact hmain
  rcases leastFrom_spec (stepStop g.turnOrder g.playerHands
      g.currentTurnIdx) g.turnOrder.length 1 with
    ⟨h1, h2⟩ | ⟨h1, h2, h3, h4⟩
  · by_cases hPn : stepStop g.turnOrder g.playerHands g.currentTurnIdx
        g.turnOrder.length = true
    · left
      refine ⟨g.turnOrder.length, by omega, le_refl _,
        by rw [hadv, h1], ?_, fun j hj1 hj2 => h2 j hj1 hj2⟩
      rw [hadv, h1]
      exact hPn
    · right
      constructor
      · intro j hj1 hj2
        rcases Nat.eq_or_lt_of_le hj2 with hj' | hj'
        · have := (Bool.not_eq_true _).mp hPn
          rw [hj']
          exact this
        · exact h2 j hj1 hj'
      · rw [hadv, h1, Nat.add_mod_right, Nat.mod_eq_of_lt hcur]
  · left
    refine ⟨leastFrom (stepStop g.turnOrder g.playerHands
        g.currentTurnIdx) g.turnOrder.length 1, h1, by omega, hadv,
      ?_, h4⟩
    rw [hadv]
    exact h3

/-- Witness for the turn-advance characterization in a two-player
game. -/
theorem advanceTurn_correct_witness :
    (∃ i, 1 ≤ i ∧ i ≤ (NewGame ["a", "b"] [⟨"hearts", "2"⟩, ⟨"hearts", "3"⟩] true true
        1 200 10000 false 3).turnOrder.length ∧
      (NewGame ["a", "b"] [⟨"hearts", "2"⟩, ⟨"hearts", "3"⟩] true true 1 200 10000
          false 3).advanceTurn.currentTurnIdx
        = ((NewGame ["a", "b"] [⟨"hearts", "2"⟩, ⟨"hearts", "3"⟩] true true 1 200
            10000 false 3).currentTurnIdx + i)
          % (NewGame ["a", "b"] [⟨"hearts", "2"⟩, ⟨"hearts", "3"⟩] true true 1 200
            10000 false 3).turnOrder.length ∧
      seatHasCards (NewGame ["a", "b"] [⟨"hearts", "2"⟩, ⟨"hearts", "3"⟩] true true 1
          200 10000 false 3).turnOrder
        (NewGame ["a", "b"] [⟨"hearts", "2"⟩, ⟨"hearts", "3"⟩] true true 1 200 10000
          false 3).playerHands
        (NewGame ["a", "b"] [⟨"hearts", "2"⟩, ⟨"hearts", "3"⟩] true true 1 200 10000
          false 3).advanceTurn.currentTurnIdx = true ∧
      ∀ j, 1 ≤ j → j < i → seatHasCards
        (NewGame ["a", "b"] [⟨"hearts", "2"⟩, ⟨"hearts", "3"⟩] true true 1 200 10000
          false 3).turnOrder
        (NewGame ["a", "b"] [⟨"hearts", "2"⟩, ⟨"hearts", "3"⟩] true true 1 200 10000
          false 3).playerHands
        (((NewGame ["a", "b"] [⟨"hearts", "2"⟩, ⟨"hearts", "3"⟩] true true 1 200
            10000 false 3).currentTurnIdx + j)
          % (NewGame ["a", "b"] [⟨"hearts", "2"⟩, ⟨"hearts", "3"⟩] true true 1 200
            10000 false 3).turnOrder.length) = false)
    ∨ ((∀ j, 1 ≤ j → j ≤ (NewGame ["a", "b"] [⟨"hearts", "2"⟩, ⟨"hearts", "3"⟩] true
          true 1 200 10000 false 3).turnOrder.length →
        seatHasCards (NewGame ["a", "b"] [⟨"hearts", "2"⟩, ⟨"hearts", "3"⟩] true true
            1 200 10000 false 3).turnOrder
          (NewGame ["a", "b"] [⟨"hearts", "2"⟩, ⟨"hearts", "3"⟩] true true 1 200
            10000 false 3).playerHands
          (((NewGame ["a", "b"] [⟨"hearts", "2"⟩, ⟨"hearts", "3"⟩] true true 1 200
              10000 false 3).currentTurnIdx + j)
            % (NewGame ["a", "b"] [⟨"hearts", "2"⟩, ⟨"hearts", "3"⟩] true true 1 200
              10000 false 3).turnOrder.length) = false) ∧
      (NewGame ["a", "b"] [⟨"hearts", "2"⟩, ⟨"hearts", "3"⟩] true true 1 200 10000
          false 3).advanceTurn.currentTurnIdx
        = (NewGame ["a", "b"] [⟨"hearts", "2"⟩, ⟨"hearts", "3"⟩] true true 1 200
            10000 false 3).currentTurnIdx) :=
  advanceTurn_correct (NewGame ["a", "b"] [⟨"hearts", "2"⟩, ⟨"hearts", "3"⟩] true true
    1 200 10000 false 3) (by decide) (by decide)


/-- A cooldown-rejected slap returns the `cooldown` failure and changes
nothing but the raw total-attempt tally. -/
theorem ProcessSlap_cooldown_eq (g : Game) (pid : String) (now t0 : Int)
    (hlast : lookupA? g.lastSlapTime pid = some t0)
    (hwin : now - t0 < (g.slapCooldownMs : Int)) :
    g.ProcessSlap pid now = (⟨pid, false, "cooldown", 0, 0⟩,
      { g with stats :=
          { g.stats with totalSlaps := g.stats.totalSlaps + 1 } }) := by
  simp [Game.ProcessSlap, cooldownBlocked, hlast, hwin]

/-- The results of a sequence of slap attempts by one player at the
given times. -/
def slapResults (g : Game) (pid : String) :
    List Int → List SlapResultPayload
  | [] => []
  | t :: ts =>
    (g.ProcessSlap pid t).1 :: slapResults (g.ProcessSlap pid t).2 pid ts

/-- Every attempt of a sequence lying inside the cooldown window of the
recorded last attempt fails with `cooldown`. -/
theorem slapResults_cooldown (pid : String) (t0 : Int) :
    ∀ (ts : List Int) (g : Game),
      lookupA? g.lastSlapTime pid = some t0 →
      (∀ t ∈ ts, t - t0 < (g.slapCooldownMs : Int)) →
      ∀ res ∈ slapResults g pid ts,
        res.success = false ∧ res.reason = "cooldown"
  | [], _, _, _ => by simp [slapResults]
  | t :: ts, g, hlast, hwin => by
    have hstep := ProcessSlap_cooldown_eq g pid t t0 hlast
      (hwin t (by simp))
    intro res hres
    rw [slapResults, hstep] at hres
    simp only [List.mem_cons] at hres
    rcases hres with hres | hres
    · rw [hres]
      exact ⟨rfl, rfl⟩
    · exact slapResults_cooldown pid t0 ts
        { g with stats :=
            { g.stats with totalSlaps := g.stats.totalSlaps + 1 } }
        hlast (fun u hu => hwin u (by simp [hu])) res hres

/-- C5: a slap attempt within `slapCooldownMs` of the player's recorded
last attempt is rejected with reason `cooldown` and zero burn penalty,
the only state change being the raw total-attempt tally (hands, pile,
turn index, last-attempt time and per-player statistics untouched); and
every attempt of any sequence lying within the cooldown window of that
recorded attempt likewise fails with `cooldown`, regardless of pile
validity. -/
theorem ProcessSlap_cooldown_rejection (g : Game) (pid : String)
    (now t0 : Int) (hlast : lookupA? g.lastSlapTime pid = some t0)
    (hwin : now - t0 < (g.slapCooldownMs : Int)) :
    g.ProcessSlap pid now = (⟨pid, false, "cooldown", 0, 0⟩,
      { g with stats :=
          { g.stats with totalSlaps := g.stats.totalSlaps + 1 } })
    ∧ ∀ (ts : List Int),
        (∀ t ∈ ts, t - t0 < (g.slapCooldownMs : Int)) →
        ∀ res ∈ slapResults g pid ts,
          res.success = false ∧ res.reason = "cooldown" :=
  ⟨ProcessSlap_cooldown_eq g pid now t0 hlast hwin,
   fun ts hts => slapResults_cooldown pid t0 ts g hlast hts⟩

/-- A sample two-player game used by concrete witnesses: the
round-robin deal gives player `a` three cards and player `b` two. -/
def sampleGame : Game :=
  NewGame ["a", "b"]
    [⟨"clubs", "2"⟩, ⟨"clubs", "3"⟩, ⟨"spades", "J"⟩,
      ⟨"diamonds", "5"⟩, ⟨"clubs", "5"⟩]
    true true 1 200 10000 false 3

/-- The sample game after player `a` slapped at time 0. -/
def sampleGameSlapped : Game :=
  { sampleGame with lastSlapTime := [("a", 0)] }

/-- Witness: in the sample game with a slap by `a` recorded at time 0,
a second attempt at time 100 (within the 200 ms cooldown) is rejected
with `cooldown` and only the attempt tally changes. -/
theorem ProcessSlap_cooldown_rejection_witness :
    sampleGameSlapped.ProcessSlap "a" 100
      = (⟨"a", false, "cooldown", 0, 0⟩,
        { sampleGameSlapped with stats :=
            { sampleGameSlapped.stats with totalSlaps :=
                sampleGameSlapped.stats.totalSlaps + 1 } })
    ∧ ∀ (ts : List Int),
        (∀ t ∈ ts, t - 0 < (sampleGameSlapped.slapCooldownMs : Int)) →
        ∀ res ∈ slapResults sampleGameSlapped "a" ts,
          res.success = false ∧ res.reason = "cooldown" :=
  ProcessSlap_cooldown_rejection sampleGameSlapped "a" 100 0 (by decide)
    (by decide)

/-- Bumping the attempt tally does not affect the cooldown test. -/
theorem cooldownBlocked_stats (g : Game) (s : GameStats) (pid : String)
    (now : Int) :
    cooldownBlocked { g with stats := s } pid now
      = cooldownBlocked g pid now := rfl

/-- The Go clamp of the burn penalty to the hand size is `min`. -/
theorem burnCount_eq_min (p n : Nat) :
    (if p > n then n else p) = min p n := by
  rw [Nat.min_def]
  by_cases h : p ≤ n
  · rw [if_neg (by omega), if_pos h]
  · rw [if_pos (by omega), if_neg h]

/-- The full state transition of a non-cooldown invalid slap by a
player holding cards: the cooldown stamp is recorded, the first
`min(burnPenalty, handSize)` cards move from the hand front to the pile
bottom, and the attempt and burn statistics are charged. -/
theorem ProcessSlap_burn_eq (g : Game) (pid : String) (now : Int)
    (hcb : cooldownBlocked g pid now = false)
    (hhand : lookupA [] g.playerHands pid ≠ [])
    (hinv : g.rules.CheckSlap g.pile = SlapReason.invalid) :
    g.ProcessSlap pid now = (⟨pid, false, "invalid", 0,
        min g.burnPenalty (lookupA [] g.playerHands pid).length⟩,
      { g with
          playerHands := setA g.playerHands pid
            ((lookupA [] g.playerHands pid).drop
              (min g.burnPenalty
                (lookupA [] g.playerHands pid).length)),
          pile := (lookupA [] g.playerHands pid).take
              (min g.burnPenalty (lookupA [] g.playerHands pid).length)
            ++ g.pile,
          lastSlapTime := setA g.lastSlapTime pid now,
          stats :=
            { totalSlaps := g.stats.totalSlaps + 1,
              successfulSlaps := g.stats.successfulSlaps,
              cardsBurned := setA g.stats.cardsBurned pid
                (lookupA 0 g.stats.cardsBurned pid
                  + min g.burnPenalty
                      (lookupA [] g.playerHands pid).length) } }) := by
  have hpos : 0 < (lookupA [] g.playerHands pid).length :=
    List.length_pos.mpr hhand
  have hlen0 : ¬((lookupA [] g.playerHands pid).length = 0) := by omega
  simp [Game.ProcessSlap, Game.processSlapResolve, Game.applyBurnPenalty,
    cooldownBlocked_stats, hcb, hinv, hpos, hlen0, burnCount_eq_min,
    SlapReason.str]

/-- In the aliasing-free value model, a non-cooldown slap on an
invalid pile by a player holding cards removes exactly
`min(burnPenalty, handSize)` cards from the front of their hand,
prepends them to the bottom of the pile with the rest of the pile's
order preserved, charges that count to the player's cards-burned
statistic, and returns a non-success result with reason `invalid`
carrying the burn count.  This is the spec's intended behaviour; the
running program deviates on the hand (see
`burn_aliasing_corrupts_hand`). -/
theorem ProcessSlap_invalid_burn (g : Game) (pid : String) (now : Int)
    (hcb : cooldownBlocked g pid now = false)
    (hhand : lookupA [] g.playerHands pid ≠ [])
    (hinv : g.rules.CheckSlap g.pile = SlapReason.invalid) :
    (g.ProcessSlap pid now).1 = ⟨pid, false, "invalid", 0,
        min g.burnPenalty (lookupA [] g.playerHands pid).length⟩
    ∧ lookupA [] (g.ProcessSlap pid now).2.playerHands pid
        = (lookupA [] g.playerHands pid).drop
            (min g.burnPenalty (lookupA [] g.playerHands pid).length)
    ∧ (g.ProcessSlap pid now).2.pile
        = (lookupA [] g.playerHands pid).take
            (min g.burnPenalty (lookupA [] g.playerHands pid).length)
          ++ g.pile
    ∧ lookupA 0 (g.ProcessSlap pid now).2.stats.cardsBurned pid
        = lookupA 0 g.stats.cardsBurned pid
          + min g.burnPenalty (lookupA [] g.playerHands pid).length := by
  rw [ProcessSlap_burn_eq g pid now hcb hhand hinv]
  exact ⟨rfl, by simp [lookupA_setA_self], rfl,
    by simp [lookupA_setA_self]⟩

/-- The value-model burn behaviour at the spec's Scenario D: in the
sample game with burn penalty 1 and an empty (hence invalid) pile,
player `a` holding 3 cards burns exactly 1 card from the front of their
hand to the pile bottom and is charged 1 burned card. -/
theorem ProcessSlap_invalid_burn_witness :
    (sampleGame.ProcessSlap "a" 500).1 = ⟨"a", false, "invalid", 0,
        min sampleGame.burnPenalty
          (lookupA [] sampleGame.playerHands "a").length⟩
    ∧ lookupA [] (sampleGame.ProcessSlap "a" 500).2.playerHands "a"
        = (lookupA [] sampleGame.playerHands "a").drop
            (min sampleGame.burnPenalty
              (lookupA [] sampleGame.playerHands "a").length)
    ∧ (sampleGame.ProcessSlap "a" 500).2.pile
        = (lookupA [] sampleGame.playerHands "a").take
            (min sampleGame.burnPenalty
              (lookupA [] sampleGame.playerHands "a").length)
          ++ sampleGame.pile
    ∧ lookupA 0 (sampleGame.ProcessSlap "a" 500).2.stats.cardsBurned "a"
        = lookupA 0 sampleGame.stats.cardsBurned "a"
          + min sampleGame.burnPenalty
              (lookupA [] sampleGame.playerHands "a").length :=
  ProcessSlap_invalid_burn sampleGame "a" 500 (by decide) (by decide)
    (by decide)

/-! ## The burn-penalty aliasing bug

`applyBurnPenalty` (`game.go`) runs

```
burnedCards := hand[:burnCount]
g.PlayerHands[playerID] = hand[burnCount:]
g.Pile = append(burnedCards, g.Pile...)
```

`burnedCards` retains the hand's backing array, and `Deal` (`card.go`)
allocates every hand with spare capacity `52/numPlayers + 1` (27 for
two players), so whenever `burnCount + len(pile) ≤ cap(hand)` the
append writes the pile into the backing array in place — beneath the
just-stored remaining hand `hand[burnCount:]`, which views the same
cells.  The pile slice receives the correct values, but the remaining
hand's leading cells are overwritten by the pile contents.
-/

/-- The memory effect of `applyBurnPenalty`'s append on the hand's
backing array when `burnCount + len(pile)` fits within the capacity:
the pile is written at positions `burnCount, ...` of the backing array
and the stored remaining hand is a view `[burnCount, handLen)` of that
same array.  Returns (new pile value, stored remaining hand value). -/
def burnInPlace (handBacking : List Card) (handLen burnCount : Nat)
    (pile : List Card) : List Card × List Card :=
  let backing := handBacking.take burnCount ++ pile
    ++ handBacking.drop (burnCount + pile.length)
  (backing.take (burnCount + pile.length),
   (backing.drop burnCount).take (handLen - burnCount))

/-- The backing array of the second player's hand after a fresh
two-player deal: 26 dealt cards in a capacity-27 array (`Deal`
allocates `52/2 + 1`), the spare cell holding the zero value. -/
def burnDemoBacking : List Card := newDeckCards.take 26 ++ [⟨"", ""⟩]

/-- The one-card pile after the first player plays a non-Jack, so that
`CheckSlap` is `invalid` and a slap burns. -/
def burnDemoPile : List Card := [⟨"spades", "9"⟩]

/-- C1: the running program does not conserve the card multiset.  At a
reachable failing state — fresh two-player deal, first player plays a
non-Jack (one-card pile), second player (hand of 26 in a cap-27
backing array) slaps the invalid pile with burn penalty 1 — the append
of `applyBurnPenalty` fits in the spare capacity and writes the pile
card over the stored remaining hand's first cell: that card is now
duplicated (in the pile and in the hand) and the hand's second card is
destroyed, so the multiset of all cards in play no longer equals the
deck (only the size sum is preserved).  In the aliasing-free value
model conservation does hold: `cards_conserved_value_model`. -/
theorem burn_aliasing_breaks_conservation :
    1 + burnDemoPile.length ≤ burnDemoBacking.length ∧
    ((burnInPlace burnDemoBacking 26 1 burnDemoPile).1 : Multiset Card)
        + ((burnInPlace burnDemoBacking 26 1
            burnDemoPile).2 : Multiset Card)
      ≠ (burnDemoPile : Multiset Card)
        + ((burnDemoBacking.take 26 : List Card) : Multiset Card) := by
  constructor
  · decide
  · decide

/-- C4: at the same reachable failing state as
`burn_aliasing_breaks_conservation`, the burned player's stored hand is
not their original hand minus its first `min(burnPenalty, handSize)`
cards — its front is overwritten by the pile contents — while the pile
itself does receive the burned cards on its bottom as claimed. -/
theorem burn_aliasing_corrupts_hand :
    (burnInPlace burnDemoBacking 26 1 burnDemoPile).2
        ≠ (burnDemoBacking.take 26).drop 1 ∧
    (burnInPlace burnDemoBacking 26 1 burnDemoPile).1
        = (burnDemoBacking.take 26).take 1 ++ burnDemoPile := by
  constructor
  · decide
  · decide

/-- A member of the turn order is found by the winner-seat scan at an
in-range index holding exactly that player. -/
theorem findIdx?_of_mem (pid : String) : ∀ (l : List String), pid ∈ l →
    ∃ i, l.findIdx? (fun x => x == pid) = some i ∧ i < l.length ∧
      l.getD i "" = pid
  | [], h => absurd h (List.not_mem_nil pid)
  | x :: xs, h => by
    by_cases hx : (x == pid) = true
    · refine ⟨0, ?_, by simp, by simpa using eq_of_beq hx⟩
      rw [List.findIdx?_cons]
      simp [hx]
    · have hmem : pid ∈ xs := by
        rcases List.mem_cons.mp h with hpx | hm
        · exact absurd (by simp [hpx]) hx
        · exact hm
      obtain ⟨i, hi1, hi2, hi3⟩ := findIdx?_of_mem pid xs hmem
      refine ⟨i + 1, ?_, by simpa using hi2, by simpa using hi3⟩
      rw [List.findIdx?_cons]
      simp [hx, hi1]

/-- The full state transition of a non-cooldown valid slap by a player
holding cards: the whole pile moves to the back of their hand, the pile
clears, the slap window closes, the slap is credited and the winner's
seat becomes the current turn. -/
theorem ProcessSlap_valid_eq (g : Game) (pid : String) (now : Int)
    (hcb : cooldownBlocked g pid now = false)
    (hhand : lookupA [] g.playerHands pid ≠ [])
    (hvalid : g.rules.CheckSlap g.pile ≠ SlapReason.invalid) :
    g.ProcessSlap pid now = (⟨pid, true,
        (g.rules.CheckSlap g.pile).str, g.pile.length, 0⟩,
      { g with
          playerHands := setA g.playerHands pid
            (lookupA [] g.playerHands pid ++ g.pile),
          pile := [],
          slapWindowOpen := false,
          lastSlapTime := setA g.lastSlapTime pid now,
          currentTurnIdx :=
            match g.turnOrder.findIdx? (fun x => x == pid) with
            | some i => i
            | none => g.currentTurnIdx,
          stats :=
            { totalSlaps := g.stats.totalSlaps + 1,
              successfulSlaps := setA g.stats.successfulSlaps pid
                (lookupA 0 g.stats.successfulSlaps pid + 1),
              cardsBurned := g.stats.cardsBurned } }) := by
  have hpos : 0 < (lookupA [] g.playerHands pid).length :=
    List.length_pos.mpr hhand
  simp [Game.ProcessSlap, Game.processSlapResolve, cooldownBlocked_stats,
    hcb, hvalid, hpos]

/-- The full state transition of a non-cooldown valid slap-back-in by a
zero-card player with the feature enabled and attempts remaining: as a
valid slap, plus the player's slap-in counter increments. -/
theorem ProcessSlap_slapIn_valid_eq (g : Game) (pid : String) (now : Int)
    (hcb : cooldownBlocked g pid now = false)
    (hhand : lookupA [] g.playerHands pid = [])
    (hsi : g.enableSlapIn = true)
    (hcnt : lookupA 0 g.slapInCounts pid < g.maxSlapIns)
    (hvalid : g.rules.CheckSlap g.pile ≠ SlapReason.invalid) :
    g.ProcessSlap pid now = (⟨pid, true,
        (g.rules.CheckSlap g.pile).str, g.pile.length, 0⟩,
      { g with
          playerHands := setA g.playerHands pid
            (lookupA [] g.playerHands pid ++ g.pile),
          pile := [],
          slapWindowOpen := false,
          lastSlapTime := setA g.lastSlapTime pid now,
          slapInCounts := setA g.slapInCounts pid
            (lookupA 0 g.slapInCounts pid + 1),
          currentTurnIdx :=
            match g.turnOrder.findIdx? (fun x => x == pid) with
            | some i => i
            | none => g.currentTurnIdx,
          stats :=
            { totalSlaps := g.stats.totalSlaps + 1,
              successfulSlaps := setA g.stats.successfulSlaps pid
                (lookupA 0 g.stats.successfulSlaps pid + 1),
              cardsBurned := g.stats.cardsBurned } }) := by
  have hcs : (g.enableSlapIn
      && decide (lookupA 0 g.slapInCounts pid < g.maxSlapIns)) = true := by
    simp [hsi, hcnt]
  simp [Game.ProcessSlap, Game.processSlapResolve, cooldownBlocked_stats,
    hcb, hvalid, hhand, hcs]

/-- C3: whenever a player allowed to slap (not in cooldown, and either
holding cards or eligible to slap back in) slaps a pile whose
`CheckSlap` is not `invalid`, the slap succeeds with a cards-won count
equal to the pile size, the whole pile is appended to that player's
hand, the pile empties, the slap window closes, the player's
successful-slap statistic increments, and the current-turn index becomes
that player's seat, making the slap winner the next to act. -/
theorem ProcessSlap_valid_win (g : Game) (pid : String) (now : Int)
    (hcb : cooldownBlocked g pid now = false)
    (hallow : lookupA [] g.playerHands pid ≠ []
      ∨ (g.enableSlapIn = true
          ∧ lookupA 0 g.slapInCounts pid < g.maxSlapIns))
    (hvalid : g.rules.CheckSlap g.pile ≠ SlapReason.invalid)
    (hmem : pid ∈ g.turnOrder) :
    (g.ProcessSlap pid now).1.success = true
    ∧ (g.ProcessSlap pid now).1.cardsWon = g.pile.length
    ∧ lookupA [] (g.ProcessSlap pid now).2.playerHands pid
        = lookupA [] g.playerHands pid ++ g.pile
    ∧ (g.ProcessSlap pid now).2.pile = []
    ∧ (g.ProcessSlap pid now).2.slapWindowOpen = false
    ∧ lookupA 0 (g.ProcessSlap pid now).2.stats.successfulSlaps pid
        = lookupA 0 g.stats.successfulSlaps pid + 1
    ∧ (g.ProcessSlap pid now).2.currentTurnIdx < g.turnOrder.length
    ∧ g.turnOrder.getD ((g.ProcessSlap pid now).2.currentTurnIdx) ""
        = pid := by
  obtain ⟨i, hi1, hi2, hi3⟩ := findIdx?_of_mem pid g.turnOrder hmem
  by_cases hhand : lookupA [] g.playerHands pid = []
  · rcases hallow with hne | ⟨hsi, hcnt⟩
    · exact absurd hhand hne
    · rw [ProcessSlap_slapIn_valid_eq g pid now hcb hhand hsi hcnt
        hvalid]
      refine ⟨rfl, rfl, by simp [lookupA_setA_self], rfl, rfl,
        by simp [lookupA_setA_self], ?_, ?_⟩
      · simp only [hi1]
        exact hi2
      · simp only [hi1]
        exact hi3
  · rw [ProcessSlap_valid_eq g pid now hcb hhand hvalid]
    refine ⟨rfl, rfl, by simp [lookupA_setA_self], rfl, rfl,
      by simp [lookupA_setA_self], ?_, ?_⟩
    · simp only [hi1]
      exact hi2
    · simp only [hi1]
      exact hi3

/-- The sample game with a Jack on the pile, so a slap is valid. -/
def sampleGameJack : Game :=
  { sampleGame with pile := [⟨"hearts", "7"⟩, ⟨"clubs", "J"⟩] }

/-- Witness: player `b` slaps the Jack-topped pile of the sample game
and wins both pile cards, becoming the next to act. -/
theorem ProcessSlap_valid_win_witness :
    (sampleGameJack.ProcessSlap "b" 500).1.success = true
    ∧ (sampleGameJack.ProcessSlap "b" 500).1.cardsWon
        = sampleGameJack.pile.length
    ∧ lookupA [] (sampleGameJack.ProcessSlap "b" 500).2.playerHands "b"
        = lookupA [] sampleGameJack.playerHands "b"
          ++ sampleGameJack.pile
    ∧ (sampleGameJack.ProcessSlap "b" 500).2.pile = []
    ∧ (sampleGameJack.ProcessSlap "b" 500).2.slapWindowOpen = false
    ∧ lookupA 0
          (sampleGameJack.ProcessSlap "b"
            500).2.stats.successfulSlaps "b"
        = lookupA 0 sampleGameJack.stats.successfulSlaps "b" + 1
    ∧ (sampleGameJack.ProcessSlap "b" 500).2.currentTurnIdx
        < sampleGameJack.turnOrder.length
    ∧ sampleGameJack.turnOrder.getD
        ((sampleGameJack.ProcessSlap "b" 500).2.currentTurnIdx) ""
        = "b" :=
  ProcessSlap_valid_win sampleGameJack "b" 500 (by decide)
    (Or.inl (by decide)) (by decide) (by decide)

/-- A zero-card player who cannot slap back in (feature off or attempts
exhausted) is rejected as `eliminated`; only the attempt tally and the
player's cooldown stamp change. -/
theorem ProcessSlap_eliminated_eq (g : Game) (pid : String) (now : Int)
    (hcb : cooldownBlocked g pid now = false)
    (hhand : lookupA [] g.playerHands pid = [])
    (hno : (g.enableSlapIn
      && decide (lookupA 0 g.slapInCounts pid < g.maxSlapIns))
        = false) :
    g.ProcessSlap pid now = (⟨pid, false, "eliminated", 0, 0⟩,
      { g with
          lastSlapTime := setA g.lastSlapTime pid now,
          stats :=
            { totalSlaps := g.stats.totalSlaps + 1,
              successfulSlaps := g.stats.successfulSlaps,
              cardsBurned := g.stats.cardsBurned } }) := by
  simp [Game.ProcessSlap, cooldownBlocked_stats, hcb, hhand, hno]

/-- A permitted zero-card slap attempt on an invalid pile fails with
zero burn penalty; only the attempt tally and the cooldown stamp
change. -/
theorem ProcessSlap_slapIn_invalid_eq (g : Game) (pid : String)
    (now : Int) (hcb : cooldownBlocked g pid now = false)
    (hhand : lookupA [] g.playerHands pid = [])
    (hsi : g.enableSlapIn = true)
    (hcnt : lookupA 0 g.slapInCounts pid < g.maxSlapIns)
    (hinv : g.rules.CheckSlap g.pile = SlapReason.invalid) :
    g.ProcessSlap pid now = (⟨pid, false, "invalid", 0, 0⟩,
      { g with
          lastSlapTime := setA g.lastSlapTime pid now,
          stats :=
            { totalSlaps := g.stats.totalSlaps + 1,
              successfulSlaps := g.stats.successfulSlaps,
              cardsBurned := g.stats.cardsBurned } }) := by
  have hcs : (g.enableSlapIn
      && decide (lookupA 0 g.slapInCounts pid < g.maxSlapIns)) = true := by
    simp [hsi, hcnt]
  simp [Game.ProcessSlap, cooldownBlocked_stats, hcb, hhand, hcs, hinv,
    SlapReason.str]

/-- C6: a slap attempt by a zero-card player is permitted only when
slap-back-in is enabled and the player's slap-in count is below the
configured maximum; otherwise it is rejected as `eliminated` with no
card transfer.  When permitted, an attempt on an invalid pile fails
with zero burn penalty and no cards burned, and a valid slap increments
the player's slap-back-in counter and wins them the pile. -/
theorem ProcessSlap_slapIn_rules (g : Game) (pid : String) (now : Int)
    (hcb : cooldownBlocked g pid now = false)
    (hhand : lookupA [] g.playerHands pid = []) :
    (¬(g.enableSlapIn = true
        ∧ lookupA 0 g.slapInCounts pid < g.maxSlapIns) →
      g.ProcessSlap pid now = (⟨pid, false, "eliminated", 0, 0⟩,
        { g with
            lastSlapTime := setA g.lastSlapTime pid now,
            stats :=
              { totalSlaps := g.stats.totalSlaps + 1,
                successfulSlaps := g.stats.successfulSlaps,
                cardsBurned := g.stats.cardsBurned } }))
    ∧ (g.enableSlapIn = true →
        lookupA 0 g.slapInCounts pid < g.maxSlapIns →
        g.rules.CheckSlap g.pile = SlapReason.invalid →
        g.ProcessSlap pid now = (⟨pid, false, "invalid", 0, 0⟩,
          { g with
              lastSlapTime := setA g.lastSlapTime pid now,
              stats :=
                { totalSlaps := g.stats.totalSlaps + 1,
                  successfulSlaps := g.stats.successfulSlaps,
                  cardsBurned := g.stats.cardsBurned } }))
    ∧ (g.enableSlapIn = true →
        lookupA 0 g.slapInCounts pid < g.maxSlapIns →
        g.rules.CheckSlap g.pile ≠ SlapReason.invalid →
        (g.ProcessSlap pid now).1.success = true
        ∧ (g.ProcessSlap pid now).1.cardsWon = g.pile.length
        ∧ lookupA 0 (g.ProcessSlap pid now).2.slapInCounts pid
            = lookupA 0 g.slapInCounts pid + 1
        ∧ lookupA [] (g.ProcessSlap pid now).2.playerHands pid = g.pile
        ∧ (g.ProcessSlap pid now).2.pile = []) := by
  refine ⟨fun hnp => ?_, fun hsi hcnt hinv => ?_,
    fun hsi hcnt hvalid => ?_⟩
  · have hno : (g.enableSlapIn
        && decide (lookupA 0 g.slapInCounts pid < g.maxSlapIns))
          = false := by
      rcases Bool.eq_false_or_eq_true g.enableSlapIn with h | h
      · have hc : ¬(lookupA 0 g.slapInCounts pid < g.maxSlapIns) :=
          fun hc => hnp ⟨h, hc⟩
        simp [h, hc]
      · simp [h]
    exact ProcessSlap_eliminated_eq g pid now hcb hhand hno
  · exact ProcessSlap_slapIn_invalid_eq g pid now hcb hhand hsi hcnt
      hinv
  · rw [ProcessSlap_slapIn_valid_eq g pid now hcb hhand hsi hcnt hvalid]
    exact ⟨rfl, rfl, by simp [lookupA_setA_self],
      by simp [lookupA_setA_self, hhand], rfl⟩

/-- A game in which player `a` holds no cards, slap-back-in is
disabled, and a Jack tops the pile. -/
def sampleGameElim : Game :=
  { NewGame ["a", "b"] [⟨"hearts", "2"⟩, ⟨"hearts", "3"⟩] true true 1
      200 10000 false 3 with
      playerHands := [("a", []), ("b", [⟨"hearts", "3"⟩])],
      pile := [⟨"spades", "J"⟩] }

/-- Witness (the spec's Scenario F): in `sampleGameElim` the zero-card
player `a` slaps a valid (Jack-topped) pile with slap-back-in disabled
and is rejected as `eliminated` with no card transfer. -/
theorem ProcessSlap_slapIn_rules_witness :
    sampleGameElim.ProcessSlap "a" 500
      = (⟨"a", false, "eliminated", 0, 0⟩,
        { sampleGameElim with
            lastSlapTime := setA sampleGameElim.lastSlapTime "a" 500,
            stats :=
              { totalSlaps := sampleGameElim.stats.totalSlaps + 1,
                successfulSlaps :=
                  sampleGameElim.stats.successfulSlaps,
                cardsBurned := sampleGameElim.stats.cardsBurned } }) :=
  (ProcessSlap_slapIn_rules sampleGameElim "a" 500 (by decide)
    (by decide)).1 (by decide)

/-- The burn penalty does not touch the pending-slap list. -/
theorem pendingSlaps_applyBurnPenalty (g : Game) (pid : String) :
    (g.applyBurnPenalty pid).2.pendingSlaps = g.pendingSlaps := by
  simp only [Game.applyBurnPenalty]
  split <;> rfl

/-- Slap resolution does not touch the pending-slap list. -/
theorem pendingSlaps_processSlapResolve (g : Game) (pid : String)
    (hc : Bool) (r : SlapReason) :
    (g.processSlapResolve pid hc r).2.pendingSlaps = g.pendingSlaps := by
  simp only [Game.processSlapResolve]
  split
  · exact pendingSlaps_applyBurnPenalty g pid
  · split <;> rfl

/-- `ProcessSlap` does not touch the pending-slap list. -/
theorem pendingSlaps_ProcessSlap (g : Game) (pid : String) (now : Int) :
    (g.ProcessSlap pid now).2.pendingSlaps = g.pendingSlaps := by
  simp only [Game.ProcessSlap]
  split
  · rfl
  · split
    · split
      · rfl
      · split
        · rfl
        · exact pendingSlaps_processSlapResolve _ pid _ _
    · exact pendingSlaps_processSlapResolve _ pid _ _

/-- Nothing in the engine ever appends to `PendingSlaps`: in every
reachable state the pending-slap list is empty. -/
theorem pendingSlaps_Reachable (g : Game) (h : Reachable g) :
    g.pendingSlaps = [] := by
  induction h with
  | base ids deck d s bp cd tt esi msi hpos hdeal => rfl
  | play g pid hg ih =>
    unfold Game.PlayCard
    split
    · exact ih
    · split
      · exact ih
      · rfl
  | slap g pid now hg ih =>
    rw [pendingSlaps_ProcessSlap]
    exact ih
  | timeout g hg ih =>
    simp only [Game.autoPlayStep]
    split
    · exact ih
    · exact ih

/-- On an empty pending-slap list, the timeout auto-play body is
exactly the state transition of a manual `PlayCard` by the current
player with a non-empty hand. -/
theorem autoPlayStep_eq_PlayCard (g : Game) (hps : g.pendingSlaps = [])
    (hhand : lookupA [] g.playerHands
      (g.turnOrder.getD g.currentTurnIdx "") ≠ []) :
    g.autoPlayStep
      = (g.PlayCard (g.turnOrder.getD g.currentTurnIdx "")).2 := by
  simp only [Game.autoPlayStep, Game.PlayCard]
  rw [show (g.turnOrder.getD g.currentTurnIdx ""
      != g.turnOrder.getD g.currentTurnIdx "") = false from by simp]
  cases hm : lookupA [] g.playerHands
      (g.turnOrder.getD g.currentTurnIdx "") with
  | nil => exact absurd hm hhand
  | cons card rest =>
    simp only [Bool.false_eq_true, if_false, hps]

/-- A manual play by the current player with a non-empty hand
succeeds. -/
theorem PlayCard_current_ok (g : Game)
    (hhand : lookupA [] g.playerHands
      (g.turnOrder.getD g.currentTurnIdx "") ≠ []) :
    ∃ c, (g.PlayCard (g.turnOrder.getD g.currentTurnIdx "")).1
      = Except.ok c := by
  simp only [Game.PlayCard]
  rw [show (g.turnOrder.getD g.currentTurnIdx ""
      != g.turnOrder.getD g.currentTurnIdx "") = false from by simp]
  cases hm : lookupA [] g.playerHands
      (g.turnOrder.getD g.currentTurnIdx "") with
  | nil => exact absurd hm hhand
  | cons card rest => exact ⟨card, by simp⟩

/-- C9: in every reachable state whose current player holds a card, the
turn-timeout auto-play performs exactly the state transition of a
manual `PlayCard` by that player — hands, pile, slap-window flag,
pending-slap list and current-turn index all agree — and that manual
play succeeds. -/
theorem timeout_autoplay_eq_PlayCard (g : Game) (h : Reachable g)
    (hhand : lookupA [] g.playerHands
      (g.turnOrder.getD g.currentTurnIdx "") ≠ []) :
    g.autoPlayStep
      = (g.PlayCard (g.turnOrder.getD g.currentTurnIdx "")).2
    ∧ ∃ c, (g.PlayCard (g.turnOrder.getD g.currentTurnIdx "")).1
      = Except.ok c :=
  ⟨autoPlayStep_eq_PlayCard g (pendingSlaps_Reachable g h) hhand,
   PlayCard_current_ok g hhand⟩

/-- Witness: the auto-play equivalence at the freshly dealt one-player
game over the full deck. -/
theorem timeout_autoplay_eq_PlayCard_witness :
    (NewGame ["p"] newDeckCards true true 1 200 10000 false 3).autoPlayStep
      = ((NewGame ["p"] newDeckCards true true 1 200 10000 false
          3).PlayCard
        ((NewGame ["p"] newDeckCards true true 1 200 10000 false
          3).turnOrder.getD
          (NewGame ["p"] newDeckCards true true 1 200 10000 false
            3).currentTurnIdx "")).2
    ∧ ∃ c, ((NewGame ["p"] newDeckCards true true 1 200 10000 false
          3).PlayCard
        ((NewGame ["p"] newDeckCards true true 1 200 10000 false
          3).turnOrder.getD
          (NewGame ["p"] newDeckCards true true 1 200 10000 false
            3).currentTurnIdx "")).1 = Except.ok c :=
  timeout_autoplay_eq_PlayCard
    (NewGame ["p"] newDeckCards true true 1 200 10000 false 3)
    (Reachable.base ["p"] newDeckCards true true 1 200 10000 false 3
      (by decide) rfl)
    (by decide)

/-! ## The room roster (`internal/room/room.go`) -/

/-- `Player` from `room.go`. -/
structure Player where
  id : String
  name : String
  isHost : Bool
  isConnected : Bool
  position : Nat
  deriving DecidableEq, Repr

/-- `Room` from `room.go`.  The settings, the game pointer and the
mutex carry no roster state and are omitted; the player map is an
association list in iteration order (Go map iteration order is
arbitrary; the host-reassignment scan and the position reindexing scan
are modelled over the list order). -/
structure Room where
  code : String
  players : List Player
  status : String
  hostID : String
  deriving DecidableEq, Repr

/-- `NewRoom` from `room.go`: the creator is the sole player and the
host; the generated UUID enters as the `pid` parameter. -/
def NewRoom (code hostName : String) (pid : String) : Room where
  code := code
  players := [⟨pid, hostName, true, true, 0⟩]
  status := "waiting"
  hostID := pid

/-- `AddPlayer` from `room.go`: appends a non-host connected player at
the next position; the generated UUID enters as the `pid` parameter. -/
def Room.AddPlayer (r : Room) (name : String) (pid : String) : Room :=
  { r with players :=
      r.players ++ [⟨pid, name, false, true, r.players.length⟩] }

/-- The position-reindexing scan at the end of `RemovePlayer`:
positions are reassigned densely from `pos` in iteration order. -/
def reindexFrom (pos : Nat) : List Player → List Player
  | [] => []
  | p :: ps => { p with position := pos } :: reindexFrom (pos + 1) ps

/-- `RemovePlayer` from `room.go`: deletes the player; if the departed
player was the host and players remain, the host role is reassigned to
the first connected player found (none if all are disconnected); then
positions are reindexed densely from 0. -/
def Room.RemovePlayer (r : Room) (pid : String) : Room :=
  let players := r.players.filter (fun q => q.id != pid)
  let r1 :=
    if r.hostID == pid && decide (0 < players.length) then
      match players.find? (fun p => p.isConnected) with
      | some p =>
        { r with
            players := players.map (fun q =>
              if q.id == p.id then { q with isHost := true } else q),
            hostID := p.id }
      | none => { r with players := players }
    else { r with players := players }
  { r1 with players := reindexFrom 0 r1.players }

/-- The host-uniqueness invariant claimed by the spec: player ids are
distinct (they are Go map keys), and while the room is non-empty
exactly one player has `host = true`, with that player's id equal to
the room's `HostID`. -/
def Room.hostInv (r : Room) : Prop :=
  (r.players.map Player.id).Nodup ∧
  (r.players ≠ [] →
    r.players.countP (fun p => p.isHost) = 1 ∧
    ∀ p ∈ r.players, p.isHost = true → p.id = r.hostID)

/-- A room whose host is connected and whose other player is not. -/
def roomCE : Room :=
  { code := "ROOM",
    players := [⟨"A", "alice", true, true, 0⟩,
      ⟨"B", "bob", false, false, 1⟩],
    status := "waiting",
    hostID := "A" }

/-- Counterexample to C10 as stated: `roomCE` satisfies the
host-uniqueness invariant, yet removing the host leaves a non-empty
room (the disconnected player remains) in which no player has
`host = true` — the reassignment scan only considers connected
players. -/
theorem RemovePlayer_host_loss :
    roomCE.hostInv ∧ (roomCE.RemovePlayer "A").players ≠ []
      ∧ ¬∃ p ∈ (roomCE.RemovePlayer "A").players, p.isHost = true := by
  refine ⟨⟨by decide, fun _ => ⟨by decide, by decide⟩⟩, by decide, ?_⟩
  decide

theorem reindexFrom_map_id (n : Nat) (l : List Player) :
    (reindexFrom n l).map Player.id = l.map Player.id := by
  induction l generalizing n with
  | nil => rfl
  | cons p ps ih => simp [reindexFrom, ih]

theorem reindexFrom_countP (n : Nat) (l : List Player) :
    (reindexFrom n l).countP (fun p => p.isHost)
      = l.countP (fun p => p.isHost) := by
  induction l generalizing n with
  | nil => rfl
  | cons p ps ih => simp [reindexFrom, List.countP_cons, ih]

theorem reindexFrom_mem (n : Nat) (l : List Player) (p : Player)
    (hp : p ∈ reindexFrom n l) :
    ∃ q ∈ l, p.id = q.id ∧ p.isHost = q.isHost := by
  induction l generalizing n with
  | nil => simp [reindexFrom] at hp
  | cons q qs ih =>
    rw [reindexFrom] at hp
    rcases List.mem_cons.mp hp with h | h
    · exact ⟨q, List.mem_cons_self q qs, by rw [h], by rw [h]⟩
    · obtain ⟨q', hq', h1, h2⟩ := ih (n + 1) h
      exact ⟨q', List.mem_cons_of_mem q hq', h1, h2⟩

theorem reindexFrom_ne_nil (n : Nat) (l : List Player) (h : l ≠ []) :
    reindexFrom n l ≠ [] := by
  cases l with
  | nil => exact absurd rfl h
  | cons p ps => simp [reindexFrom]

/-- Reindexing positions preserves the host-uniqueness invariant. -/
theorem hostInv_reindex (r1 : Room) (h : r1.hostInv) :
    Room.hostInv { r1 with players := reindexFrom 0 r1.players } := by
  obtain ⟨hnd, hh⟩ := h
  refine ⟨by rw [reindexFrom_map_id]; exact hnd, fun hne => ?_⟩
  have hne' : r1.players ≠ [] := by
    intro h0
    apply hne
    show reindexFrom 0 r1.players = []
    rw [h0]
    rfl
  obtain ⟨hc, hall⟩ := hh hne'
  refine ⟨by rw [reindexFrom_countP]; exact hc, fun p hp hph => ?_⟩
  obtain ⟨q, hq, hid, hhost⟩ := reindexFrom_mem 0 r1.players p hp
  rw [hid]
  exact hall q hq (by rw [← hhost]; exact hph)

/-- C10, amended: while its player set is non-empty a room has exactly
one player with `host = true`, whose id is the room's `HostID`; this
holds for a newly created room, is preserved by `AddPlayer` on
non-empty rooms with a fresh player id, and is preserved by
`RemovePlayer` provided that either the departing player is not the
host or some remaining player is connected (if the host departs leaving
only disconnected players, no reassignment happens and the invariant is
lost, as the counterexample shows). -/
theorem host_uniqueness_amended :
    (∀ code hostName pid, (NewRoom code hostName pid).hostInv)
    ∧ (∀ (r : Room) (name pid : String), r.hostInv → r.players ≠ [] →
        pid ∉ r.players.map Player.id → (r.AddPlayer name pid).hostInv)
    ∧ (∀ (r : Room) (pid : String), r.hostInv →
        (r.hostID ≠ pid
          ∨ ∃ p ∈ r.players.filter (fun q => q.id != pid),
              p.isConnected = true) →
        (r.RemovePlayer pid).hostInv) := by
  refine ⟨fun code hostName pid => ?_, fun r name pid hinv hne hfresh => ?_,
    fun r pid hinv hside => ?_⟩
  · constructor
    · simp [NewRoom]
    · intro _
      constructor
      · rfl
      · intro p hp hph
        rcases List.mem_singleton.mp hp with rfl
        rfl
  · obtain ⟨hnd, hh⟩ := hinv
    obtain ⟨hc, hall⟩ := hh hne
    constructor
    · simp only [Room.AddPlayer, List.map_append, List.map_cons,
        List.map_nil]
      rw [List.nodup_append]
      exact ⟨hnd, List.nodup_singleton pid, fun a ha hmem => by
        rcases List.mem_singleton.mp hmem with rfl
        exact hfresh ha⟩
    · intro _
      constructor
      · show (r.players
            ++ [(⟨pid, name, false, true, r.players.length⟩ :
              Player)]).countP (fun p => p.isHost) = 1
        rw [List.countP_append, hc]
        rfl
      · intro p hp hph
        rcases List.mem_append.mp hp with hmem | hmem
        · exact hall p hmem hph
        · rcases List.mem_singleton.mp hmem with rfl
          simp at hph
  · obtain ⟨hnd, hh⟩ := hinv
    simp only [Room.RemovePlayer]
    apply hostInv_reindex
    have hndf : ((r.players.filter (fun q => q.id != pid)).map
        Player.id).Nodup :=
      ((r.players.filter_sublist (p := fun q => q.id != pid)).map
        Player.id).nodup hnd
    split
    · rename_i hcond
      have hhost_eq : r.hostID = pid := by
        have := (Bool.and_eq_true _ _).mp hcond
        exact eq_of_beq this.1
      have hlen : 0 < (r.players.filter
          (fun q => q.id != pid)).length := by
        have := (Bool.and_eq_true _ _).mp hcond
        simpa using this.2
      have hne' : r.players ≠ [] := by
        intro h0
        rw [h0] at hlen
        simp at hlen
      obtain ⟨hc, hall⟩ := hh hne'
      have hnohost : ∀ q ∈ r.players.filter (fun q => q.id != pid),
          q.isHost = false := by
        intro q hq
        by_cases hqh : q.isHost = true
        · have hid := hall q (List.mem_of_mem_filter hq) hqh
          have hqne := List.of_mem_filter hq
          rw [hid, hhost_eq] at hqne
          simp at hqne
        · simpa using hqh
      split
      · rename_i pstar hfind
        have hpmem : pstar ∈ r.players.filter (fun q => q.id != pid) :=
          List.mem_of_find?_eq_some hfind
        have hfid : ∀ q : Player,
            ((if q.id == pstar.id then { q with isHost := true }
              else q) : Player).id = q.id := by
          intro q
          split <;> rfl
        have hids : ((r.players.filter (fun q => q.id != pid)).map
            (fun q => if q.id == pstar.id
              then { q with isHost := true } else q)).map Player.id
            = (r.players.filter (fun q => q.id != pid)).map
                Player.id := by
          rw [List.map_map]
          exact List.map_congr_left (fun q _ => hfid q)
        constructor
        · show (((r.players.filter (fun q => q.id != pid)).map
              (fun q => if q.id == pstar.id
                then { q with isHost := true } else q)).map
              Player.id).Nodup
          rw [hids]
          exact hndf
        · intro _
          constructor
          · show ((r.players.filter (fun q => q.id != pid)).map
                (fun q => if q.id == pstar.id
                  then { q with isHost := true } else q)).countP
                (fun p => p.isHost) = 1
            rw [List.countP_map]
            rw [List.countP_congr (fun q hq => ?_)]
            · show (r.players.filter
                  (fun q => q.id != pid)).countP
                  (fun q => q.id == pstar.id) = 1
              have h1 : ((r.players.filter
                  (fun q => q.id != pid)).map Player.id).count pstar.id
                  = 1 :=
                List.count_eq_one_of_mem hndf
                  (List.mem_map_of_mem Player.id hpmem)
              rw [List.count_eq_countP] at h1
              rw [List.countP_map] at h1
              rw [← h1]
              rfl
            · show (((fun p => p.isHost) ∘ fun q =>
                  if q.id == pstar.id then { q with isHost := true }
                  else q) q = true) ↔ ((q.id == pstar.id) = true)
              have happ : (((fun p => p.isHost) ∘ fun q =>
                  if q.id == pstar.id then { q with isHost := true }
                  else q) q)
                  = (if (q.id == pstar.id) = true
                    then ({ q with isHost := true } : Player)
                    else q).isHost := rfl
              rw [happ]
              by_cases hq' : (q.id == pstar.id) = true
              · simp [hq']
              · have hq2 : (q.id == pstar.id) = false := by
                  simpa using hq'
                simp [hq2, hnohost q hq]
          · intro p hp hph
            obtain ⟨q, hq, hfq⟩ := List.mem_map.mp hp
            by_cases hq' : q.id == pstar.id
            · rw [if_pos hq'] at hfq
              rw [← hfq]
              show q.id = pstar.id
              exact eq_of_beq hq'
            · rw [if_neg hq'] at hfq
              rw [← hfq] at hph
              rw [hnohost q hq] at hph
              simp at hph
      · rename_i hfind
        exfalso
        rcases hside with hside | ⟨p, hp, hpc⟩
        · exact hside hhost_eq
        · have := List.find?_eq_none.mp hfind p hp
          simp [hpc] at this
    · rename_i hcond
      refine ⟨hndf, fun hne2 => ?_⟩
      have hlen : 0 < (r.players.filter
          (fun q => q.id != pid)).length :=
        List.length_pos.mpr hne2
      have hhost_ne : r.hostID ≠ pid := by
        intro heq
        apply hcond
        rw [heq]
        simp [hlen]
      have hne' : r.players ≠ [] := by
        intro h0
        rw [h0] at hlen
        simp at hlen
      obtain ⟨hc, hall⟩ := hh hne'
      constructor
      · show (r.players.filter (fun q => q.id != pid)).countP
            (fun p => p.isHost) = 1
        rw [List.countP_filter]
        rw [List.countP_congr (fun q hq => ?_)]
        · exact hc
        · show ((q.isHost && (q.id != pid)) = true) ↔ (q.isHost = true)
          by_cases hqh : q.isHost = true
          · have hid := hall q hq hqh
            have hne3 : (q.id != pid) = true := by
              simp only [bne_iff_ne, ne_eq]
              rw [hid]
              exact hhost_ne
            simp [hqh, hne3]
          · have hqf : q.isHost = false := by simpa using hqh
            simp [hqf]
      · intro p hp hph
        exact hall p (List.mem_of_mem_filter hp) hph

/-- Witness for the amended host invariant: removing the non-host
player `B` from the counterexample room preserves the invariant. -/
theorem host_uniqueness_amended_witness :
    (roomCE.RemovePlayer "B").hostInv :=
  host_uniqueness_amended.2.2 roomCE "B"
    ⟨by decide, fun _ => ⟨by decide, by decide⟩⟩
    (Or.inl (by decide))
